import Mathlib

/-!
Verification development for the `logging_gke` module: a Python `logging`
filter (`CloudLoggingFilter`) that enriches log records with Cloud-Logging
fields, and a handler (`StructuredLogHandler`) that renders each record as
one structured-JSON line using the `GCP_FORMAT` template.

The embedding models Python values with the inductive `PyVal`, Python dicts
as insertion-ordered association lists, `json.dumps` (with its default
`ensure_ascii=True` escaping and `", "` / `": "` separators) as `dumpsVal`,
and the record/filter/formatter pipeline as pure functions.  A standalone
JSON parser (`parseValue`) is used to state the round-trip property of the
emitted lines.
-/

set_option maxRecDepth 40000

namespace LoggingGke

/-- The double-quote character (written via its code point). -/
def qc : Char := Char.ofNat 34

/-- The backslash character (written via its code point). -/
def bsl : Char := Char.ofNat 92

/-- Model of the Python values that flow through the filter: `None`,
booleans, non-negative integers, strings, and insertion-ordered dicts. -/
inductive PyVal where
  | null
  | bool (b : Bool)
  | num (n : Nat)
  | str (s : String)
  | dict (fields : List (String × PyVal))
deriving Repr

/-- Python truthiness for the modelled values (`bool(v)`). -/
def pyTruthy : PyVal → Bool
  | .null => false
  | .bool b => b
  | .num n => decide (n ≠ 0)
  | .str s => decide (s ≠ "")
  | .dict fs => !fs.isEmpty

/-- `v is not None` in Python. -/
def isNotNull : PyVal → Bool
  | .null => false
  | _ => true

/-- First-occurrence lookup in an association list (Python `d[k]` /
`k in d` combined). -/
def lookupDict : List (String × PyVal) → String → Option PyVal
  | [], _ => Option.none
  | p :: ps, k => if p.1 = k then Option.some p.2 else lookupDict ps k

/-- Python dict assignment `d[k] = v`: updates the value in place if the
key is present (keeping its position), otherwise appends a new entry. -/
def dictInsert (d : List (String × PyVal)) (k : String) (v : PyVal) :
    List (String × PyVal) :=
  if d.any (fun p => p.1 = k) then
    d.map (fun p => if p.1 = k then (k, v) else p)
  else d ++ [(k, v)]

/-- Python `{**d, **u}`: start from `d` and insert the entries of `u` in
order, per-entry update semantics as in `dictInsert`. -/
def dictMerge (d u : List (String × PyVal)) : List (String × PyVal) :=
  u.foldl (fun acc p => dictInsert acc p.1 p.2) d

/-- Hex digit characters used by `json.dumps` for `\uXXXX` escapes
(lowercase, as CPython emits). -/
def hexDigitCh (d : Nat) : Char :=
  "0123456789abcdef".data.getD d '0'

/-- Four-hex-digit rendering of a code unit below `0x10000`. -/
def hex4 (n : Nat) : List Char :=
  [hexDigitCh (n / 4096 % 16), hexDigitCh (n / 256 % 16),
   hexDigitCh (n / 16 % 16), hexDigitCh (n % 16)]

/-- `json.dumps` escaping of one character under the default
`ensure_ascii=True`: printable ASCII other than `"` and `\` is kept,
the short escapes are used where CPython uses them, every other character
becomes `\uXXXX` (a surrogate pair above the BMP). -/
def escChar (c : Char) : List Char :=
  if c = qc then [bsl, qc]
  else if c = bsl then [bsl, bsl]
  else if c = '\n' then [bsl, 'n']
  else if c = '\r' then [bsl, 'r']
  else if c = '\t' then [bsl, 't']
  else if c.toNat = 8 then [bsl, 'b']
  else if c.toNat = 12 then [bsl, 'f']
  else if 0x20 ≤ c.toNat ∧ c.toNat ≤ 0x7e then [c]
  else if c.toNat < 0x10000 then bsl :: 'u' :: hex4 c.toNat
  else
    bsl :: 'u' :: hex4 (0xd800 + (c.toNat - 0x10000) / 0x400) ++
      bsl :: 'u' :: hex4 (0xdc00 + (c.toNat - 0x10000) % 0x400)

/-- `json.dumps` escaping of a character list. -/
def escStr : List Char → List Char
  | [] => []
  | c :: cs => escChar c ++ escStr cs

/-- Decimal digit character. -/
def digitCh (d : Nat) : Char :=
  "0123456789".data.getD d '0'

/-- Decimal rendering, fuel-based so that it reduces by computation; the
fuel is always sufficient because a number has at most `n + 1` digits. -/
def natCharsAux : Nat → Nat → List Char
  | 0, _ => []
  | fuel + 1, n =>
      if n < 10 then [digitCh n]
      else natCharsAux fuel (n / 10) ++ [digitCh (n % 10)]

/-- Decimal rendering of a natural number (no leading zeros), as CPython
renders a non-negative `int`. -/
def natChars (n : Nat) : List Char := natCharsAux (n + 1) n

mutual

/-- `json.dumps` of a modelled Python value (default separators `", "`
and `": "`, `ensure_ascii=True`), as a character list. -/
def dumpsVal : PyVal → List Char
  | .null => "null".data
  | .bool true => "true".data
  | .bool false => "false".data
  | .num n => natChars n
  | .str s => qc :: escStr s.data ++ [qc]
  | .dict fs => '\x7b' :: dumpsMembers fs ++ ['\x7d']

/-- The members of a serialized dict: `"k": v` entries joined by `", "`. -/
def dumpsMembers : List (String × PyVal) → List Char
  | [] => []
  | [p] => qc :: escStr p.1.data ++ qc :: ':' :: ' ' :: dumpsVal p.2
  | p :: q :: ps =>
      (qc :: escStr p.1.data ++ qc :: ':' :: ' ' :: dumpsVal p.2) ++
        ',' :: ' ' :: dumpsMembers (q :: ps)

end

/-- `json.dumps` of a modelled Python value, as a string. -/
def dumps (v : PyVal) : String := ⟨dumpsVal v⟩

example : dumps (.dict [("requestMethod", .str "GET")]) =
    "\x7b\"requestMethod\": \"GET\"\x7d" := by decide

example : dumps (.dict []) = "\x7b\x7d" := by decide

example : dumps (.dict [("line", .num 42), ("file", .str "a.py")]) =
    "\x7b\"line\": 42, \"file\": \"a.py\"\x7d" := by decide

/-! ## The log record and the enrichment filter -/

/-- The derived attributes the filter attaches to a record (the
underscore-prefixed `record._*` attributes of the source; Python `None`
is `PyVal.null`). -/
structure Enriched where
  resourceF : PyVal
  traceF : PyVal
  spanIdF : PyVal
  httpRequestF : PyVal
  sourceLocationF : PyVal
  labelsF : PyVal
  traceStr : String
  spanIdStr : String
  httpRequestStr : String
  sourceLocationStr : String
  labelsStr : String
  msgStr : String
deriving Repr

/-- A `logging.LogRecord` as the module consumes it.  `msg` is the already
interpolated message text, `exc_text` the rendered traceback when exception
information is attached.  The `Option` override fields model the presence
or absence of the caller-supplied `extra` attributes (`some PyVal.null`
is an attribute explicitly set to `None`, `Option.none` is an absent
attribute).  `trace` and `span_id` are modelled as strings, the shape the
module documents for them. -/
structure LogRecord where
  msg : String
  levelname : String
  lineno : Option Nat
  pathname : Option String
  funcName : Option String
  exc_text : Option String := Option.none
  labels : Option (List (String × PyVal)) := Option.none
  trace : Option String := Option.none
  span_id : Option String := Option.none
  http_request : Option PyVal := Option.none
  source_location : Option PyVal := Option.none
  resource : Option PyVal := Option.none
  enriched : Option Enriched := Option.none
deriving Repr

/-- Configuration of `CloudLoggingFilter.__init__`: the optional project
and the default labels (already defaulted to the empty dict). -/
structure FilterConfig where
  project : Option String
  default_labels : List (String × PyVal)
deriving Repr

/-- The four keys of `CloudLoggingFilter._supported_http_fields`. -/
def supportedHttpField (k : String) : Bool :=
  k = "requestMethod" || k = "requestUrl" || k = "userAgent" || k = "protocol"

/-- The dict comprehension of `CloudLoggingFilter.filter` that restricts an
http-request mapping to the supported keys and drops `None` values (applied
in the source only to the inferred mapping). -/
def filterHttp : PyVal → PyVal
  | .dict fs => .dict (fs.filter fun p => supportedHttpField p.1 && isNotNull p.2)
  | v => v

/-- Python `x or None`. -/
def pyOrNull (v : PyVal) : PyVal := if pyTruthy v then v else .null

/-- Python `x or ""` for the modelled trace / span values (which are either
`None` or a string). -/
def strOrEmpty : PyVal → String
  | .str s => s
  | _ => ""

/-- Python `x or \x7b\x7d` under `json.dumps` (a falsy value serializes as the
empty object). -/
def orEmptyDict (v : PyVal) : PyVal := if pyTruthy v then v else .dict []

/-- Python `str(v)` for the modelled scalar values (only ever applied to
the dead inference branch, where the value is `None`). -/
def pyStrOf : PyVal → String
  | .null => "None"
  | .bool b => if b then "True" else "False"
  | .num n => ⟨natChars n⟩
  | .str s => s
  | .dict _ => ""

/-- Python `str.replace` of every double quote by backslash-quote, used for
`record._msg_str`. -/
def replQuote : List Char → List Char
  | [] => []
  | c :: cs => (if c = qc then [bsl, qc] else [c]) ++ replQuote cs

/-- `CloudLoggingFilter._infer_source_location`: the explicit
`source_location` attribute wins verbatim when present (`hasattr`);
otherwise the mapping is built from `lineno` / `pathname` / `funcName`
under the keys `line` / `file` / `function`, skipping unset attributes,
and `None` is returned when the mapping would be empty. -/
def inferSourceLocation (r : LogRecord) : PyVal :=
  match r.source_location with
  | Option.some v => v
  | Option.none =>
    let output : List (String × PyVal) := []
    let output := match r.lineno with
      | Option.some n => output ++ [("line", .num n)]
      | Option.none => output
    let output := match r.pathname with
      | Option.some p => output ++ [("file", .str p)]
      | Option.none => output
    let output := match r.funcName with
      | Option.some f => output ++ [("function", .str f)]
      | Option.none => output
    if output.isEmpty then .null else .dict output

/-- The body of `CloudLoggingFilter.filter`: computes every derived
attribute of the record.  The inference hooks are the literal
`None, None, None` of the source, so the two guarded branches (key
filtering of the inferred http mapping, trace-path rewriting of the
inferred trace) are dead code, kept here exactly as written. -/
def enrich (cfg : FilterConfig) (r : LogRecord) : Enriched :=
  let user_labels := r.labels.getD []
  -- infer request data from the environment
  let inferred_http : PyVal := .null
  let inferred_trace : PyVal := .null
  let inferred_span : PyVal := .null
  -- filter inferred_http to include only well-supported fields
  let inferred_http :=
    if isNotNull inferred_http then filterHttp inferred_http else inferred_http
  -- add full path for detected trace
  let inferred_trace :=
    if isNotNull inferred_trace && cfg.project.isSome then
      .str ("projects/" ++ cfg.project.getD "" ++ "/traces/" ++ pyStrOf inferred_trace)
    else inferred_trace
  -- set new record values
  let resourceF := (r.resource).getD .null
  let traceF := pyOrNull ((r.trace.map PyVal.str).getD inferred_trace)
  let spanIdF := pyOrNull ((r.span_id.map PyVal.str).getD inferred_span)
  let httpRequestF := (r.http_request).getD inferred_http
  let sourceLocationF := inferSourceLocation r
  let merged := dictMerge cfg.default_labels user_labels
  let labelsF := if merged.isEmpty then PyVal.null else .dict merged
  -- create string representations for structured logging
  { resourceF := resourceF
    traceF := traceF
    spanIdF := spanIdF
    httpRequestF := httpRequestF
    sourceLocationF := sourceLocationF
    labelsF := labelsF
    traceStr := strOrEmpty traceF
    spanIdStr := strOrEmpty spanIdF
    httpRequestStr := dumps (orEmptyDict httpRequestF)
    sourceLocationStr := dumps (orEmptyDict sourceLocationF)
    labelsStr := dumps (orEmptyDict labelsF)
    msgStr := if r.msg ≠ "" then ⟨replQuote r.msg.data⟩ else "" }

/-- `CloudLoggingFilter.filter`: attaches the derived attributes to the
record and returns `True` (keep the record). -/
def cloudLoggingFilter (cfg : FilterConfig) (r : LogRecord) : LogRecord × Bool :=
  ({ r with enriched := Option.some (enrich cfg r) }, true)

/-! ## The structured formatter -/

/-- `logging.Handler.format` with no formatter configured (the behaviour
`StructuredLogHandler.format` delegates to via `super().format`): the
interpolated message, with the rendered traceback appended on a new line
when exception text is present. -/
def superFormat (r : LogRecord) : String :=
  let s := r.msg
  match r.exc_text with
  | Option.some t => (if s.endsWith "\n" then s else s ++ "\n") ++ t
  | Option.none => s

/-- The literal pieces of the `GCP_FORMAT` template, as character lists. -/
def chunkMessage : List Char :=
  ['\x7b', qc, 'm', 'e', 's', 's', 'a', 'g', 'e', qc, ':', ' ']

def chunkSeverity : List Char :=
  [',', ' ', qc, 's', 'e', 'v', 'e', 'r', 'i', 't', 'y', qc, ':', ' ', qc]

def chunkLabels : List Char :=
  [qc, ',', ' ', qc, 'l', 'o', 'g', 'g', 'i', 'n', 'g', '.', 'g', 'o', 'o',
   'g', 'l', 'e', 'a', 'p', 'i', 's', '.', 'c', 'o', 'm', '/', 'l', 'a',
   'b', 'e', 'l', 's', qc, ':', ' ']

def chunkTrace : List Char :=
  [',', ' ', qc, 'l', 'o', 'g', 'g', 'i', 'n', 'g', '.', 'g', 'o', 'o',
   'g', 'l', 'e', 'a', 'p', 'i', 's', '.', 'c', 'o', 'm', '/', 't', 'r',
   'a', 'c', 'e', qc, ':', ' ', qc]

def chunkSpanId : List Char :=
  [qc, ',', ' ', qc, 'l', 'o', 'g', 'g', 'i', 'n', 'g', '.', 'g', 'o', 'o',
   'g', 'l', 'e', 'a', 'p', 'i', 's', '.', 'c', 'o', 'm', '/', 's', 'p',
   'a', 'n', 'I', 'd', qc, ':', ' ', qc]

def chunkSourceLocation : List Char :=
  [qc, ',', ' ', qc, 'l', 'o', 'g', 'g', 'i', 'n', 'g', '.', 'g', 'o', 'o',
   'g', 'l', 'e', 'a', 'p', 'i', 's', '.', 'c', 'o', 'm', '/', 's', 'o',
   'u', 'r', 'c', 'e', 'L', 'o', 'c', 'a', 't', 'i', 'o', 'n', qc, ':', ' ']

def chunkHttpRequest : List Char :=
  [',', ' ', qc, 'h', 't', 't', 'p', 'R', 'e', 'q', 'u', 'e', 's', 't',
   qc, ':', ' ']

def chunkClose : List Char := [' ', '\x7d']

/-- The `GCP_FORMAT` `%`-template applied to the record attributes: every
`%(name)s` hole is replaced by the corresponding string, everything else
is the literal template text. -/
def gcpRender (fm lvl lbl tr sp sl hr : String) : String :=
  ⟨chunkMessage ++ fm.data ++ chunkSeverity ++ lvl.data ++ chunkLabels ++
   lbl.data ++ chunkTrace ++ tr.data ++ chunkSpanId ++ sp.data ++
   chunkSourceLocation ++ sl.data ++ chunkHttpRequest ++ hr.data ++
   chunkClose⟩

/-- The template pieces agree character for character with the
`GCP_FORMAT` string of the source. -/
example :
    gcpRender "@1" "@2" "@3" "@4" "@5" "@6" "@7" =
      "\x7b\"message\": @1, \"severity\": \"@2\", " ++
      "\"logging.googleapis.com/labels\": @3, " ++
      "\"logging.googleapis.com/trace\": \"@4\", " ++
      "\"logging.googleapis.com/spanId\": \"@5\", " ++
      "\"logging.googleapis.com/sourceLocation\": @6, " ++
      "\"httpRequest\": @7 \x7d" := by decide

/-- `StructuredLogHandler.format` applied to an enriched record: the
message is rendered by the parent handler only when truthy, JSON-encoded
(producing `""` for an empty message), exception info is cleared, and the
`GCP_FORMAT` template is rendered. -/
def structuredFormat (r : LogRecord) (e : Enriched) : String :=
  let super_payload : Option String :=
    if r.msg ≠ "" then Option.some (superFormat r) else Option.none
  let formatted_msg := dumps (.str (super_payload.getD ""))
  gcpRender formatted_msg r.levelname e.labelsStr e.traceStr e.spanIdStr
    e.sourceLocationStr e.httpRequestStr

/-- The full per-record pipeline of the handler: the attached filter
enriches the record, then `format` renders the line. -/
def emitLine (cfg : FilterConfig) (r : LogRecord) : String :=
  let fr := cloudLoggingFilter cfg r
  structuredFormat fr.1 (enrich cfg r)

/-! ## A JSON parser

Used to state the round-trip property of the emitted lines ("every line is
valid JSON").  It follows the JSON grammar: objects, arrays, strings with
the standard escapes (including surrogate pairs), `true` / `false` /
`null`, and integer numbers (the only numeric shape the module can emit;
fractional syntax is not needed to settle any claim). -/

/-- Parsed JSON values. -/
inductive Json where
  | null
  | bool (b : Bool)
  | num (n : Int)
  | str (s : String)
  | arr (xs : List Json)
  | obj (fs : List (String × Json))
deriving Repr

/-- JSON whitespace. -/
def isWsChar (c : Char) : Bool := c = ' ' || c = '\n' || c = '\t' || c = '\r'

/-- Drop leading JSON whitespace. -/
def skipWs : List Char → List Char
  | [] => []
  | c :: cs => if isWsChar c then skipWs cs else c :: cs

/-- Value of one hex digit. -/
def hexVal (c : Char) : Option Nat :=
  if '0' ≤ c ∧ c ≤ '9' then Option.some (c.toNat - 48)
  else if 'a' ≤ c ∧ c ≤ 'f' then Option.some (c.toNat - 87)
  else if 'A' ≤ c ∧ c ≤ 'F' then Option.some (c.toNat - 55)
  else Option.none

/-- Prepend a decoded character to the result of parsing the rest of a
string body. -/
def consStr (c : Char) :
    Option (List Char × List Char) → Option (List Char × List Char)
  | Option.some p => Option.some (c :: p.1, p.2)
  | Option.none => Option.none

/-- Decode the escaped low surrogate that must follow a high one. -/
def decodeLow (n : Nat) : List Char → Option (Char × List Char)
  | c5 :: c6 :: g1 :: g2 :: g3 :: g4 :: cs3 =>
    if c5 = bsl ∧ c6 = 'u' then
      match hexVal g1, hexVal g2, hexVal g3, hexVal g4 with
      | Option.some e1, Option.some e2, Option.some e3, Option.some e4 =>
        let m := e1 * 4096 + e2 * 256 + e3 * 16 + e4
        if 0xdc00 ≤ m ∧ m < 0xe000 then
          Option.some
            (Char.ofNat (0x10000 + (n - 0xd800) * 0x400 + (m - 0xdc00)), cs3)
        else Option.none
      | _, _, _, _ => Option.none
    else Option.none
  | _ => Option.none

/-- Decode the four hex digits after `\u`, combining a high surrogate
with the following escaped low surrogate. -/
def decodeU : List Char → Option (Char × List Char)
  | h1 :: h2 :: h3 :: h4 :: cs2 =>
    match hexVal h1, hexVal h2, hexVal h3, hexVal h4 with
    | Option.some d1, Option.some d2, Option.some d3, Option.some d4 =>
      let n := d1 * 4096 + d2 * 256 + d3 * 16 + d4
      if 0xd800 ≤ n ∧ n < 0xdc00 then decodeLow n cs2
      else if 0xdc00 ≤ n ∧ n < 0xe000 then Option.none
      else Option.some (Char.ofNat n, cs2)
    | _, _, _, _ => Option.none
  | _ => Option.none

/-- Decode one JSON string-escape sequence (the characters after a
backslash): returns the decoded character and the remaining input.  Not
recursive — surrogate pairs are handled by an explicit lookahead. -/
def decodeEsc : List Char → Option (Char × List Char)
  | [] => Option.none
  | e :: cs =>
    if e = qc then Option.some (qc, cs)
    else if e = bsl then Option.some (bsl, cs)
    else if e = '/' then Option.some ('/', cs)
    else if e = 'b' then Option.some (Char.ofNat 8, cs)
    else if e = 'f' then Option.some (Char.ofNat 12, cs)
    else if e = 'n' then Option.some ('\n', cs)
    else if e = 'r' then Option.some ('\r', cs)
    else if e = 't' then Option.some ('\t', cs)
    else if e = 'u' then decodeU cs
    else Option.none

/-- Decode one string element: `Option.some (Option.none, rest)` is the
closing quote, `Option.some (Option.some c, rest)` one decoded character,
`Option.none` a malformed body. -/
def decodeOne : List Char → Option (Option Char × List Char)
  | [] => Option.none
  | c :: cs =>
    if c = qc then Option.some (Option.none, cs)
    else if c = bsl then
      match decodeEsc cs with
      | Option.some p => Option.some (Option.some p.1, p.2)
      | Option.none => Option.none
    else if c.toNat < 0x20 then Option.none
    else Option.some (Option.some c, cs)

/-- Parse a JSON string body (after the opening quote) up to and including
the closing quote, decoding escapes; fuel-based (each step consumes at
least one character, so `length + 1` fuel always suffices). -/
def parseStrBodyF : Nat → List Char → Option (List Char × List Char)
  | 0, _ => Option.none
  | fuel + 1, l =>
    match decodeOne l with
    | Option.some (Option.some d, rest) => consStr d (parseStrBodyF fuel rest)
    | Option.some (Option.none, rest) => Option.some ([], rest)
    | Option.none => Option.none

/-- Parse a JSON string body with always-sufficient fuel. -/
def parseStrBody (l : List Char) : Option (List Char × List Char) :=
  parseStrBodyF (l.length + 1) l

/-- Accumulate decimal digits. -/
def parseDigitsAux (acc : Nat) : List Char → Nat × List Char
  | c :: cs =>
      if c.isDigit then parseDigitsAux (acc * 10 + (c.toNat - 48)) cs
      else (acc, c :: cs)
  | [] => (acc, [])

/-- Parse a non-negative integer (at least one digit). -/
def parseNum : List Char → Option (Nat × List Char)
  | c :: cs =>
      if c.isDigit then Option.some (parseDigitsAux 0 (c :: cs))
      else Option.none
  | [] => Option.none

mutual

/-- Parse one JSON value; `fuel` bounds the recursion and is in every use
instantiated large enough (the parser consumes at least one character
before each recursive call). -/
def parseValue : Nat → List Char → Option (Json × List Char)
  | 0, _ => Option.none
  | fuel + 1, cs =>
    match skipWs cs with
    | [] => Option.none
    | c :: rest =>
      if c = 'n' then
        match rest with
        | 'u' :: 'l' :: 'l' :: r => Option.some (.null, r)
        | _ => Option.none
      else if c = 't' then
        match rest with
        | 'r' :: 'u' :: 'e' :: r => Option.some (.bool true, r)
        | _ => Option.none
      else if c = 'f' then
        match rest with
        | 'a' :: 'l' :: 's' :: 'e' :: r => Option.some (.bool false, r)
        | _ => Option.none
      else if c = qc then
        match parseStrBody rest with
        | Option.some p => Option.some (.str ⟨p.1⟩, p.2)
        | Option.none => Option.none
      else if c = '-' then
        match parseNum rest with
        | Option.some p => Option.some (.num (-(p.1 : Int)), p.2)
        | Option.none => Option.none
      else if c = '\x7b' then parseMembers fuel rest
      else if c = '[' then parseItems fuel rest
      else if c.isDigit then
        match parseNum (c :: rest) with
        | Option.some p => Option.some (.num (p.1 : Int), p.2)
        | Option.none => Option.none
      else Option.none

/-- Parse the inside of an object after the opening brace: either the
closing brace (empty object) or a non-empty member list. -/
def parseMembers : Nat → List Char → Option (Json × List Char)
  | 0, _ => Option.none
  | fuel + 1, cs =>
    match skipWs cs with
    | [] => Option.none
    | c :: rest =>
      if c = '\x7d' then Option.some (.obj [], rest)
      else
        match parseMembers1 fuel (c :: rest) with
        | Option.some p => Option.some (.obj p.1, p.2)
        | Option.none => Option.none

/-- Parse a non-empty member list followed by the closing brace (no
trailing comma, as JSON requires). -/
def parseMembers1 : Nat → List Char → Option (List (String × Json) × List Char)
  | 0, _ => Option.none
  | fuel + 1, cs =>
    match skipWs cs with
    | [] => Option.none
    | c :: rest =>
      if c = qc then
        match parseStrBody rest with
        | Option.some kp =>
          (match skipWs kp.2 with
           | ':' :: cs2 =>
             match parseValue fuel cs2 with
             | Option.some vp =>
               (match skipWs vp.2 with
                | ',' :: cs3 =>
                  (match parseMembers1 fuel cs3 with
                   | Option.some mp =>
                     Option.some ((⟨kp.1⟩, vp.1) :: mp.1, mp.2)
                   | Option.none => Option.none)
                | '\x7d' :: cs3 => Option.some ([(⟨kp.1⟩, vp.1)], cs3)
                | _ => Option.none)
             | Option.none => Option.none
           | _ => Option.none)
        | Option.none => Option.none
      else Option.none

/-- Parse the inside of an array after the opening bracket. -/
def parseItems : Nat → List Char → Option (Json × List Char)
  | 0, _ => Option.none
  | fuel + 1, cs =>
    match skipWs cs with
    | [] => Option.none
    | c :: rest =>
      if c = ']' then Option.some (.arr [], rest)
      else
        match parseItems1 fuel (c :: rest) with
        | Option.some p => Option.some (.arr p.1, p.2)
        | Option.none => Option.none

/-- Parse a non-empty item list followed by the closing bracket. -/
def parseItems1 : Nat → List Char → Option (List Json × List Char)
  | 0, _ => Option.none
  | fuel + 1, cs =>
    match parseValue fuel cs with
    | Option.some vp =>
      (match skipWs vp.2 with
       | ',' :: cs2 =>
         (match parseItems1 fuel cs2 with
          | Option.some ip => Option.some (vp.1 :: ip.1, ip.2)
          | Option.none => Option.none)
       | ']' :: cs2 => Option.some ([vp.1], cs2)
       | _ => Option.none)
    | Option.none => Option.none

end

/-- Parse a complete JSON document: one value, with only whitespace
allowed after it.  The fuel `length + 1` is always sufficient because the
parser consumes at least one character before each recursive call. -/
def parseJson (s : String) : Option Json :=
  match parseValue (s.data.length + 1) s.data with
  | Option.some p => if (skipWs p.2).isEmpty then Option.some p.1 else Option.none
  | Option.none => Option.none

/-- The top-level keys of a string that parses as a JSON object; `none`
when the string is not a complete JSON document or not an object. -/
def topLevelKeys (s : String) : Option (List String) :=
  match parseJson s with
  | Option.some (.obj fs) => Option.some (fs.map Prod.fst)
  | _ => Option.none

example :
    parseJson "\x7b\"a\": [1, -2, \"x\\n\", \x7b\x7d], \"b\": null\x7d" =
      Option.some (.obj [("a", .arr [.num 1, .num (-2), .str "x\n", .obj []]),
        ("b", .null)]) := rfl

example : parseJson "\x7b\"a\": 1, \x7d" = Option.none := rfl

example : parseJson "\x7b\"a\": \"b\"c\"\x7d" = Option.none := rfl

example : parseJson "\"\\ud83d\\ude00\"" =
    Option.some (.str ⟨[Char.ofNat 128512]⟩) := rfl

/-! ## Dictionary lemmas (for the label-merge claim) -/

theorem lookupDict_append (d1 d2 : List (String × PyVal)) (k : String) :
    lookupDict (d1 ++ d2) k =
      match lookupDict d1 k with
      | Option.some v => Option.some v
      | Option.none => lookupDict d2 k := by
  induction d1 with
  | nil => simp [lookupDict]
  | cons p ps ih =>
      by_cases h : p.1 = k <;> simp [lookupDict, h, ih]

theorem lookupDict_eq_none_of_not_mem (d : List (String × PyVal)) (k : String)
    (h : k ∉ d.map Prod.fst) : lookupDict d k = Option.none := by
  induction d with
  | nil => rfl
  | cons p ps ih =>
      simp only [List.map_cons, List.mem_cons, not_or] at h
      have h1 : ¬p.1 = k := fun hh => h.1 hh.symm
      simp [lookupDict, h1, ih h.2]

theorem lookupDict_map_update (d : List (String × PyVal)) (k : String)
    (v : PyVal) (x : String) :
    lookupDict (d.map fun p => if p.1 = k then (k, v) else p) x =
      if x = k then ((lookupDict d k).map fun _ => v) else lookupDict d x := by
  induction d with
  | nil => by_cases h : x = k <;> simp [lookupDict, h]
  | cons p ps ih =>
      by_cases hp : p.1 = k
      · by_cases hx : x = k
        · subst hx
          simp [lookupDict, hp]
        · have hx' : ¬k = x := fun h => hx h.symm
          have hpx : ¬p.1 = x := by rw [hp]; exact hx'
          simp [lookupDict, hp, hx, hx', hpx, ih]
      · by_cases hx : x = k
        · subst hx
          simp [lookupDict, hp, ih]
        · simp [lookupDict, hp, hx, ih]

theorem any_key_eq_isSome (d : List (String × PyVal)) (k : String) :
    d.any (fun p => p.1 = k) = (lookupDict d k).isSome := by
  induction d with
  | nil => rfl
  | cons p ps ih =>
      by_cases h : p.1 = k <;> simp [lookupDict, h, ih]

theorem lookupDict_dictInsert (d : List (String × PyVal)) (k : String)
    (v : PyVal) (x : String) :
    lookupDict (dictInsert d k v) x =
      if x = k then Option.some v else lookupDict d x := by
  unfold dictInsert
  by_cases hin : d.any (fun p => p.1 = k)
  · rw [if_pos hin, lookupDict_map_update]
    rw [any_key_eq_isSome] at hin
    by_cases hx : x = k
    · subst hx
      cases hl : lookupDict d x with
      | none => rw [hl] at hin; simp at hin
      | some w => simp [hl]
    · simp [hx]
  · rw [if_neg hin, lookupDict_append]
    rw [any_key_eq_isSome] at hin
    by_cases hx : x = k
    · subst hx
      cases hl : lookupDict d x with
      | none => simp [lookupDict]
      | some w => rw [hl] at hin; simp at hin
    · have hx' : ¬k = x := fun h => hx h.symm
      cases hl : lookupDict d x with
      | none => simp [lookupDict, hx, hx']
      | some w => simp [hx]


theorem lookupDict_dictMerge (d u : List (String × PyVal)) (x : String)
    (hnd : (u.map Prod.fst).Nodup) :
    lookupDict (dictMerge d u) x =
      match lookupDict u x with
      | Option.some v => Option.some v
      | Option.none => lookupDict d x := by
  induction u generalizing d with
  | nil => simp [dictMerge, lookupDict]
  | cons p ps ih =>
      simp only [List.map_cons, List.nodup_cons] at hnd
      have step : dictMerge d (p :: ps) = dictMerge (dictInsert d p.1 p.2) ps := rfl
      rw [step, ih _ hnd.2]
      by_cases hx : p.1 = x
      · subst hx
        have hnone : lookupDict ps p.1 = Option.none :=
          lookupDict_eq_none_of_not_mem ps p.1 hnd.1
        simp [lookupDict, hnone, lookupDict_dictInsert]
      · have hx' : ¬x = p.1 := fun h => hx h.symm
        simp only [lookupDict, if_neg hx, lookupDict_dictInsert, if_neg hx']

/-! ## The claims -/

/-- Lookup in the labels mapping the filter attached to a record. -/
def labelsLookup (e : Enriched) (x : String) : Option PyVal :=
  match e.labelsF with
  | .dict fs => lookupDict fs x
  | _ => Option.none

/-- An empty configuration: no project, no default labels. -/
def cfg0 : FilterConfig := ⟨Option.none, []⟩

/-- A configuration with a project id, as in the C2 example. -/
def cfgProj : FilterConfig := ⟨Option.some "proj1", []⟩

/-- The http-request mapping of the C1 example: one unsupported key plus
one supported key. -/
def cexHttpVal : PyVal := .dict [("foo", .str "bar"), ("requestMethod", .str "GET")]

/-- A record carrying the C1 http-request mapping. -/
def cexRecordC1 : LogRecord :=
  { msg := "m", levelname := "INFO", lineno := Option.none,
    pathname := Option.none, funcName := Option.none,
    http_request := Option.some cexHttpVal }

/-- C1, counterexample: the caller-supplied mapping
`\x7b"foo": "bar", "requestMethod": "GET"\x7d` is attached and serialized
verbatim — the unsupported key `foo` is NOT dropped, so the output
`httpRequest` differs from the `\x7b"requestMethod": "GET"\x7d` the claim
demands.  (The key filter of the source is applied only to the inferred
mapping, which is always `None`.) -/
theorem claim_C1_counterexample :
    (enrich cfg0 cexRecordC1).httpRequestStr =
        "\x7b\"foo\": \"bar\", \"requestMethod\": \"GET\"\x7d" ∧
      (enrich cfg0 cexRecordC1).httpRequestStr ≠
        "\x7b\"requestMethod\": \"GET\"\x7d" := by
  constructor
  · rfl
  · intro h
    have h2 : ("\x7b\"foo\": \"bar\", \"requestMethod\": \"GET\"\x7d" : String) =
        "\x7b\"requestMethod\": \"GET\"\x7d" := by
      rw [← h]; rfl
    simp at h2

/-- C1 (amended): a caller-supplied `http_request` value is attached to the
record verbatim — no key is dropped and no null-valued entry is removed —
and it is serialized as supplied (a falsy value serializing as the empty
object); only the inferred mapping, which never exists because inference
always yields `None`, would be key-filtered. -/
theorem claim_C1_theorem (cfg : FilterConfig) (r : LogRecord) (v : PyVal)
    (h : r.http_request = Option.some v) :
    (enrich cfg r).httpRequestF = v ∧
      (enrich cfg r).httpRequestStr = dumps (orEmptyDict v) := by
  constructor <;> simp [enrich, h]

/-- C1 witness: the amended theorem applied to the
`\x7b"foo": "bar", "requestMethod": "GET"\x7d` example. -/
theorem claim_C1_witness :
    cexRecordC1.http_request = Option.some cexHttpVal ∧
      (enrich cfg0 cexRecordC1).httpRequestF = cexHttpVal :=
  ⟨rfl, (claim_C1_theorem cfg0 cexRecordC1 cexHttpVal rfl).1⟩

/-- A record carrying the C2 trace value. -/
def cexRecordC2 : LogRecord :=
  { msg := "m", levelname := "INFO", lineno := Option.none,
    pathname := Option.none, funcName := Option.none,
    trace := Option.some "abc123" }

/-- C2, counterexample: with `project_id="proj1"` configured and an
explicit trace `"abc123"`, the emitted trace is still `"abc123"` — not the
fully qualified `"projects/proj1/traces/abc123"` the claim demands.  (The
path rewrite of the source is applied only to the inferred trace, which is
always `None`.) -/
theorem claim_C2_counterexample :
    (enrich cfgProj cexRecordC2).traceStr = "abc123" ∧
      "abc123" ≠ "projects/proj1/traces/abc123" := by
  constructor
  · rfl
  · simp

/-- C2 (amended): an explicit non-empty trace value is attached and
emitted unchanged whether or not a project id is configured; only the
inferred trace, which never exists because inference always yields `None`,
would be rewritten to the fully qualified path. -/
theorem claim_C2_theorem (cfg : FilterConfig) (r : LogRecord) (t : String)
    (h : r.trace = Option.some t) (hne : t ≠ "") :
    (enrich cfg r).traceF = .str t ∧ (enrich cfg r).traceStr = t := by
  have : pyTruthy (.str t) = true := by simp [pyTruthy, hne]
  constructor <;> simp [enrich, h, pyOrNull, this, strOrEmpty]

/-- C2 witness: the amended theorem applied to trace `"abc123"` with
project `"proj1"` configured. -/
theorem claim_C2_witness :
    cexRecordC2.trace = Option.some "abc123" ∧
      (enrich cfgProj cexRecordC2).traceStr = "abc123" :=
  ⟨rfl, (claim_C2_theorem cfgProj cexRecordC2 "abc123" rfl (by simp)).2⟩

/-- C3: the labels attached by the filter are the merge of the configured
default labels and the caller-supplied labels: a caller-supplied entry
always wins (also on key collision with a default), a default entry fills
in for keys the caller did not supply, and when both mappings are empty
the serialized labels field is `\x7b\x7d`. -/
theorem claim_C3_theorem (cfg : FilterConfig) (r : LogRecord)
    (hnd : ((r.labels.getD []).map Prod.fst).Nodup) :
    (∀ x v, lookupDict (r.labels.getD []) x = Option.some v →
        labelsLookup (enrich cfg r) x = Option.some v) ∧
    (∀ x v, lookupDict (r.labels.getD []) x = Option.none →
        lookupDict cfg.default_labels x = Option.some v →
        labelsLookup (enrich cfg r) x = Option.some v) ∧
    (r.labels.getD [] = [] → cfg.default_labels = [] →
      (enrich cfg r).labelsStr = "\x7b\x7d") := by
  refine ⟨?_, ?_, ?_⟩
  · intro x v hv
    have hm := lookupDict_dictMerge cfg.default_labels (r.labels.getD []) x hnd
    rw [hv] at hm
    have hne : (dictMerge cfg.default_labels (r.labels.getD [])).isEmpty = false := by
      cases he : dictMerge cfg.default_labels (r.labels.getD []) with
      | nil => rw [he] at hm; simp [lookupDict] at hm
      | cons a as => simp [he]
    simp [labelsLookup, enrich, hne, hm]
  · intro x v hnone hv
    have hm := lookupDict_dictMerge cfg.default_labels (r.labels.getD []) x hnd
    rw [hnone, hv] at hm
    have hne : (dictMerge cfg.default_labels (r.labels.getD [])).isEmpty = false := by
      cases he : dictMerge cfg.default_labels (r.labels.getD []) with
      | nil => rw [he] at hm; simp [lookupDict] at hm
      | cons a as => simp [he]
    simp [labelsLookup, enrich, hne, hm]
  · intro h1 h2
    simp [enrich, h1, h2, dictMerge, orEmptyDict, pyTruthy, dumps]
    rfl

/-- C3 witness: caller-supplied `labels = \x7b"b": "9"\x7d` with default
labels `\x7b"b": "2"\x7d`: the caller-supplied value wins. -/
theorem claim_C3_witness :
    labelsLookup
        (enrich ⟨Option.none, [("b", .str "2")]⟩
          { msg := "m", levelname := "INFO", lineno := Option.none,
            pathname := Option.none, funcName := Option.none,
            labels := Option.some [("b", .str "9")] })
        "b" = Option.some (.str "9") :=
  (claim_C3_theorem ⟨Option.none, [("b", .str "2")]⟩
      { msg := "m", levelname := "INFO", lineno := Option.none,
        pathname := Option.none, funcName := Option.none,
        labels := Option.some [("b", .str "9")] } (by simp)).1
    "b" (.str "9") rfl

/-- C5: the enrichment is idempotent — running the filter a second time on
the record it just processed, with no overrides changed in between,
recomputes exactly the same derived fields (the filter reads only the raw
inputs, never its own outputs). -/
theorem claim_C5_theorem (cfg : FilterConfig) (r : LogRecord) :
    cloudLoggingFilter cfg (cloudLoggingFilter cfg r).1 =
      cloudLoggingFilter cfg r := rfl

/-- C6: the derived source location is the explicit `source_location`
override verbatim when one is present; otherwise it is the mapping built
from the record's own line number, file path and function name under the
keys `line`, `file`, `function`, omitting entries whose record field is
unset, and is `None` — not an empty mapping — when none of the three is
set. -/
theorem claim_C6_theorem (cfg : FilterConfig) (r : LogRecord) :
    (∀ v, r.source_location = Option.some v →
        (enrich cfg r).sourceLocationF = v) ∧
    (r.source_location = Option.none →
      (enrich cfg r).sourceLocationF =
        (let entries :=
          (match r.lineno with
           | Option.some n => [("line", PyVal.num n)]
           | Option.none => []) ++
          (match r.pathname with
           | Option.some p => [("file", PyVal.str p)]
           | Option.none => []) ++
          (match r.funcName with
           | Option.some f => [("function", PyVal.str f)]
           | Option.none => []);
         if entries.isEmpty then PyVal.null else PyVal.dict entries)) := by
  constructor
  · intro v hv
    simp [enrich, inferSourceLocation, hv]
  · intro hv
    cases hl : r.lineno <;> cases hp : r.pathname <;> cases hf : r.funcName <;>
      simp [enrich, inferSourceLocation, hv, hl, hp, hf]

/-- C6 witness: a record with no override and only a line number derives
`\x7b"line": 7\x7d`; one with nothing derivable gets `None`. -/
theorem claim_C6_witness :
    (enrich cfg0
        { msg := "m", levelname := "INFO", lineno := Option.some 7,
          pathname := Option.none, funcName := Option.none }).sourceLocationF =
      .dict [("line", .num 7)] := by
  have h := (claim_C6_theorem cfg0
    { msg := "m", levelname := "INFO", lineno := Option.some 7,
      pathname := Option.none, funcName := Option.none }).2 rfl
  simpa using h

/-- Two strings with the same character data are equal. -/
theorem stringEq_of_data {s t : String} (h : s.data = t.data) : s = t := by
  cases s; cases t; exact congrArg String.mk h

/-- The character data of a `String.mk`. -/
theorem strDataMk (l : List Char) : (String.mk l).data = l := rfl

/-- The character data of a string append. -/
theorem strDataAppend (s t : String) : (s ++ t).data = s.data ++ t.data := rfl

/-- For a record with an empty (falsy) message, the rendered line is the
template applied to the JSON-encoded empty string. -/
theorem emitLine_empty_msg (cfg : FilterConfig) (r : LogRecord)
    (h : r.msg = "") :
    emitLine cfg r =
      gcpRender "\x22\x22" r.levelname (enrich cfg r).labelsStr
        (enrich cfg r).traceStr (enrich cfg r).spanIdStr
        (enrich cfg r).sourceLocationStr (enrich cfg r).httpRequestStr := by
  simp only [emitLine, cloudLoggingFilter, structuredFormat, h]
  simp [dumps, dumpsVal, escStr]
  rfl

/-- C7: for a record with an empty (falsy) message and no exception text,
the output line's message field is the two-character JSON string `""` and
the severity field is the record's level name. -/
theorem claim_C7_theorem (cfg : FilterConfig) (r : LogRecord)
    (h1 : r.msg = "") (h2 : r.exc_text = Option.none) :
    ∃ rest, emitLine cfg r =
      "\x7b\"message\": \"\", \"severity\": \"" ++ r.levelname ++ "\", " ++ rest := by
  refine ⟨⟨chunkLabels.drop 3 ++ (enrich cfg r).labelsStr.data ++ chunkTrace ++
    (enrich cfg r).traceStr.data ++ chunkSpanId ++ (enrich cfg r).spanIdStr.data ++
    chunkSourceLocation ++ (enrich cfg r).sourceLocationStr.data ++
    chunkHttpRequest ++ (enrich cfg r).httpRequestStr.data ++ chunkClose⟩, ?_⟩
  rw [emitLine_empty_msg cfg r h1]
  apply stringEq_of_data
  simp only [gcpRender, strDataMk, strDataAppend]
  simp [chunkMessage, chunkSeverity, chunkLabels, qc, List.append_assoc]

/-- C7 witness: a concrete empty-message INFO record. -/
theorem claim_C7_witness :
    ∃ rest, emitLine cfg0
        { msg := "", levelname := "INFO", lineno := Option.none,
          pathname := Option.none, funcName := Option.none } =
      "\x7b\"message\": \"\", \"severity\": \"" ++ "INFO" ++ "\", " ++ rest :=
  claim_C7_theorem cfg0
    { msg := "", levelname := "INFO", lineno := Option.none,
      pathname := Option.none, funcName := Option.none } rfl rfl

/-- C8: the filter keeps every record — it returns `True` for every
configuration and every record, in particular for records carrying none of
the recognized override attributes (all override fields of the model may
be `Option.none`; the filter is a total function on them). -/
theorem claim_C8_theorem (cfg : FilterConfig) (r : LogRecord) :
    (cloudLoggingFilter cfg r).2 = true := rfl

/-- C9: a caller-supplied `resource` value is copied onto the record as
the derived `_resource` attribute, but the rendered line is identical
whether or not the value was supplied — the `GCP_FORMAT` template has no
resource field. -/
theorem claim_C9_theorem (cfg : FilterConfig) (r : LogRecord) (v : PyVal) :
    emitLine cfg { r with resource := Option.some v } =
        emitLine cfg { r with resource := Option.none } ∧
      (enrich cfg { r with resource := Option.some v }).resourceF = v :=
  ⟨rfl, rfl⟩

/-- C10: an explicit `source_location` override mapping — including an
empty mapping or one with unrecognized keys — is attached unchanged, is
serialized into the output exactly as supplied, and the fallback
derivation from the record's own fields is skipped entirely (the result
does not depend on the record's line number, path or function name). -/
theorem claim_C10_theorem (cfg : FilterConfig) (r : LogRecord)
    (fs : List (String × PyVal)) (h : r.source_location = Option.some (.dict fs)) :
    (enrich cfg r).sourceLocationF = .dict fs ∧
    (enrich cfg r).sourceLocationStr = dumps (.dict fs) ∧
    (∀ ln pn fn, (enrich cfg
        { r with lineno := ln, pathname := pn, funcName := fn }).sourceLocationF =
      .dict fs) := by
  refine ⟨?_, ?_, ?_⟩
  · simp [enrich, inferSourceLocation, h]
  · cases fs with
    | nil => simp [enrich, inferSourceLocation, h, orEmptyDict, pyTruthy]
    | cons a as => simp [enrich, inferSourceLocation, h, orEmptyDict, pyTruthy]
  · intro ln pn fn
    simp [enrich, inferSourceLocation, h]

/-- C10 witness: an override with an unrecognized key and an empty
override are both used verbatim. -/
theorem claim_C10_witness :
    (enrich cfg0
        { msg := "m", levelname := "INFO", lineno := Option.some 9,
          pathname := Option.some "x.py", funcName := Option.none,
          source_location := Option.some (.dict [("zz", .str "1")]) }).sourceLocationStr =
      "\x7b\"zz\": \"1\"\x7d" := by
  have h := (claim_C10_theorem cfg0
    { msg := "m", levelname := "INFO", lineno := Option.some 9,
      pathname := Option.some "x.py", funcName := Option.none,
      source_location := Option.some (.dict [("zz", .str "1")]) }
    [("zz", .str "1")] rfl).2.1
  rw [h]
  rfl

/-! ## Round-trip machinery for the JSON claim -/

/-- Characters that survive raw interpolation into a JSON string literal:
no control characters, no double quote, no backslash. -/
def safeChar (c : Char) : Bool :=
  decide (0x20 ≤ c.toNat) && !(c == qc) && !(c == bsl)

/-- All characters of the list are safe. -/
def safeChars (l : List Char) : Bool := l.all safeChar

/-- All characters of the string are safe. -/
def safeStr (s : String) : Bool := safeChars s.data

/-- An optional string is safe when absent or safe. -/
def safeOptStr : Option String → Bool
  | Option.none => true
  | Option.some s => safeStr s

mutual

/-- The JSON value a serialized `PyVal` denotes. -/
def toJson : PyVal → Json
  | .null => .null
  | .bool b => .bool b
  | .num n => .num (n : Int)
  | .str s => .str s
  | .dict fs => .obj (toJsonFields fs)

/-- The JSON object fields a serialized member list denotes. -/
def toJsonFields : List (String × PyVal) → List (String × Json)
  | [] => []
  | p :: ps => (p.1, toJson p.2) :: toJsonFields ps

end

mutual

/-- Fuel needed by the parser for a serialized value. -/
def cost : PyVal → Nat
  | .dict fs => 2 + costM fs
  | _ => 1

/-- Fuel needed by the parser for a serialized member list. -/
def costM : List (String × PyVal) → Nat
  | [] => 0
  | p :: ps => 1 + cost p.2 + costM ps

end

/-- The head of the list is not a decimal digit (numbers parsed before the
list would not extend into it). -/
def headNotDigit : List Char → Bool
  | [] => true
  | c :: _ => !c.isDigit

/-- Equal code points give equal characters. -/
theorem charEq_of_toNat {c d : Char} (h : c.toNat = d.toNat) : c = d := by
  rw [← Char.ofNat_toNat c, h, Char.ofNat_toNat]

/-- The code point of a character is never in the surrogate range and is
below `0x110000`. -/
theorem charValidNat (c : Char) :
    c.toNat < 0xd800 ∨ (0xdfff < c.toNat ∧ c.toNat < 0x110000) := c.valid

/-- `hexVal` decodes the digit characters `hexDigitCh` produces. -/
theorem hexVal_hexDigitCh (d : Nat) (h : d < 16) :
    hexVal (hexDigitCh d) = Option.some d := by
  interval_cases d <;> rfl

/-- `digitCh` produces decimal digits. -/
theorem digitCh_isDigit (d : Nat) (h : d < 10) : (digitCh d).isDigit = true := by
  interval_cases d <;> rfl

/-- The code point of `digitCh`. -/
theorem digitCh_toNat (d : Nat) (h : d < 10) : (digitCh d).toNat = 48 + d := by
  interval_cases d <;> rfl

/-- A decimal digit is not JSON whitespace. -/
theorem notWs_of_isDigit (c : Char) (h : c.isDigit = true) :
    isWsChar c = false := by
  by_cases h1 : c = ' '
  · subst h1; simp [Char.isDigit] at h
  by_cases h2 : c = '\n'
  · subst h2; simp [Char.isDigit] at h
  by_cases h3 : c = '\t'
  · subst h3; simp [Char.isDigit] at h
  by_cases h4 : c = '\r'
  · subst h4; simp [Char.isDigit] at h
  simp [isWsChar, h1, h2, h3, h4]

/-- JSON whitespace is not a decimal digit. -/
theorem notDigit_of_isWs (c : Char) (h : isWsChar c = true) :
    c.isDigit = false := by
  simp only [isWsChar, Bool.or_eq_true, decide_eq_true_eq] at h
  rcases h with ((h | h) | h) | h <;> subst h <;> rfl

/-- `skipWs` leaves a list whose head is not whitespace unchanged. -/
theorem skipWs_not_ws (c : Char) (l : List Char) (h : isWsChar c = false) :
    skipWs (c :: l) = c :: l := by
  simp [skipWs, h]

/-- Reassembling the four hex digits of a code unit below `0x10000`. -/
theorem hexReassemble (t : Nat) (h : t < 0x10000) :
    t / 4096 % 16 * 4096 + t / 256 % 16 * 256 + t / 16 % 16 * 16 + t % 16 = t := by
  omega

/-- Every escape shape produced by `escChar` is non-empty. -/
theorem escChar_length_pos (c : Char) : 1 ≤ (escChar c).length := by
  unfold escChar
  split_ifs <;> simp [hex4]

/-- `decodeU` decodes the four hex digits of a non-surrogate code point. -/
theorem decodeU_hex4 (t : Nat) (T : List Char) (hlt : t < 0x10000)
    (hns : ¬(0xd800 ≤ t ∧ t < 0xe000)) :
    decodeU (hex4 t ++ T) = Option.some (Char.ofNat t, T) := by
  simp only [hex4, List.cons_append, List.nil_append]
  rw [decodeU]
  rw [hexVal_hexDigitCh _ (by omega), hexVal_hexDigitCh _ (by omega),
      hexVal_hexDigitCh _ (by omega), hexVal_hexDigitCh _ (by omega)]
  simp only [hexReassemble t hlt]
  rw [if_neg (by omega), if_neg (by omega)]

/-- `decodeLow` decodes an escaped low surrogate. -/
theorem decodeLow_hex4 (n m : Nat) (T : List Char)
    (hm : 0xdc00 ≤ m ∧ m < 0xe000) :
    decodeLow n (bsl :: 'u' :: hex4 m ++ T) =
      Option.some
        (Char.ofNat (0x10000 + (n - 0xd800) * 0x400 + (m - 0xdc00)), T) := by
  simp only [hex4, List.cons_append, List.nil_append]
  rw [decodeLow]
  rw [if_pos (by exact ⟨rfl, rfl⟩)]
  rw [hexVal_hexDigitCh _ (by omega), hexVal_hexDigitCh _ (by omega),
      hexVal_hexDigitCh _ (by omega), hexVal_hexDigitCh _ (by omega)]
  simp only [hexReassemble m (by omega)]
  rw [if_pos hm]

/-- `decodeU` decodes a surrogate pair back to the astral code point. -/
theorem decodeU_surrogatePair (t : Nat) (T : List Char)
    (h1 : 0x10000 ≤ t) (h2 : t < 0x110000) :
    decodeU (hex4 (0xd800 + (t - 0x10000) / 0x400) ++
        (bsl :: 'u' :: (hex4 (0xdc00 + (t - 0x10000) % 0x400) ++ T))) =
      Option.some (Char.ofNat t, T) := by
  simp only [hex4, List.cons_append, List.nil_append]
  rw [decodeU]
  rw [hexVal_hexDigitCh _ (by omega), hexVal_hexDigitCh _ (by omega),
      hexVal_hexDigitCh _ (by omega), hexVal_hexDigitCh _ (by omega)]
  simp only [hexReassemble (0xd800 + (t - 0x10000) / 0x400) (by omega)]
  rw [if_pos (by omega)]
  have hl := decodeLow_hex4 (0xd800 + (t - 0x10000) / 0x400)
    (0xdc00 + (t - 0x10000) % 0x400) T (by omega)
  simp only [hex4, List.cons_append, List.nil_append] at hl
  rw [hl]
  have harith : 0x10000 + (0xd800 + (t - 0x10000) / 0x400 - 0xd800) * 0x400 +
      (0xdc00 + (t - 0x10000) % 0x400 - 0xdc00) = t := by omega
  rw [harith]

/-- `decodeOne` inverts `escChar`: one escaped character decodes back to
itself, leaving the rest of the input untouched. -/
theorem decodeOne_escChar (c : Char) (T : List Char) :
    decodeOne (escChar c ++ T) = Option.some (Option.some c, T) := by
  have hval := charValidNat c
  unfold escChar
  by_cases h1 : c = qc
  · subst h1; simp [decodeOne, decodeEsc, qc, bsl]
  rw [if_neg h1]
  by_cases h2 : c = bsl
  · subst h2; simp [decodeOne, decodeEsc, qc, bsl]
  rw [if_neg h2]
  by_cases h3 : c = '\n'
  · subst h3; simp [decodeOne, decodeEsc, qc, bsl]
  rw [if_neg h3]
  by_cases h4 : c = '\r'
  · subst h4; simp [decodeOne, decodeEsc, qc, bsl]
  rw [if_neg h4]
  by_cases h5 : c = '\t'
  · subst h5; simp [decodeOne, decodeEsc, qc, bsl]
  rw [if_neg h5]
  by_cases h6 : c.toNat = 8
  · have hc : Char.ofNat 8 = c := charEq_of_toNat (by rw [h6]; rfl)
    rw [if_pos h6]
    simp [decodeOne, decodeEsc, qc, bsl]
    exact hc
  rw [if_neg h6]
  by_cases h7 : c.toNat = 12
  · have hc : Char.ofNat 12 = c := charEq_of_toNat (by rw [h7]; rfl)
    rw [if_pos h7]
    simp [decodeOne, decodeEsc, qc, bsl]
    exact hc
  rw [if_neg h7]
  by_cases h8 : 0x20 ≤ c.toNat ∧ c.toNat ≤ 0x7e
  · rw [if_pos h8]
    have hlt : ¬c.toNat < 0x20 := by omega
    simp [decodeOne, h1, h2, hlt]
  rw [if_neg h8]
  by_cases h9 : c.toNat < 0x10000
  · rw [if_pos h9]
    simp only [List.cons_append]
    rw [decodeOne]
    rw [if_neg (by simp [qc, bsl]), if_pos rfl]
    rw [decodeEsc]
    rw [if_neg (by simp [qc]), if_neg (by simp [bsl]), if_neg (by simp),
        if_neg (by simp), if_neg (by simp), if_neg (by simp),
        if_neg (by simp), if_neg (by simp), if_pos rfl]
    rw [decodeU_hex4 c.toNat T h9 (by omega)]
    simp [Char.ofNat_toNat]
  · rw [if_neg h9]
    simp only [List.cons_append, List.append_assoc]
    rw [decodeOne]
    rw [if_neg (by simp [qc, bsl]), if_pos rfl]
    rw [decodeEsc]
    rw [if_neg (by simp [qc]), if_neg (by simp [bsl]), if_neg (by simp),
        if_neg (by simp), if_neg (by simp), if_neg (by simp),
        if_neg (by simp), if_neg (by simp), if_pos rfl]
    rw [decodeU_surrogatePair c.toNat T (by omega) (by omega)]
    simp [Char.ofNat_toNat]

/-- The fuel-parameterized string-body parser inverts `escStr` whenever
the fuel exceeds the escaped length. -/
theorem parseStrBodyF_escStr (l : List Char) :
    ∀ (fuel : Nat) (rest : List Char), (escStr l).length < fuel →
      parseStrBodyF fuel (escStr l ++ qc :: rest) = Option.some (l, rest) := by
  induction l with
  | nil =>
      intro fuel rest hf
      match fuel, hf with
      | f + 1, _ =>
        simp [escStr, parseStrBodyF, decodeOne, qc]
  | cons c cs ih =>
      intro fuel rest hf
      have hlen : (escStr (c :: cs)).length =
          (escChar c).length + (escStr cs).length := by
        simp [escStr]
      have hpos := escChar_length_pos c
      match fuel, hf with
      | f + 1, hf =>
        have hstep : escStr (c :: cs) ++ qc :: rest =
            escChar c ++ (escStr cs ++ qc :: rest) := by
          simp [escStr]
        rw [hstep]
        simp only [parseStrBodyF, decodeOne_escChar]
        rw [ih f rest (by omega)]
        rfl

/-- The string-body parser inverts `escStr`. -/
theorem parseStrBody_escStr (l : List Char) (rest : List Char) :
    parseStrBody (escStr l ++ qc :: rest) = Option.some (l, rest) := by
  unfold parseStrBody
  apply parseStrBodyF_escStr
  simp
  omega

/-- `String.mk` of the data of a string. -/
theorem strMkData (s : String) : String.mk s.data = s := rfl

/-- Digit accumulation over the rendered digits of `n` continues with `n`
absorbed into the accumulator. -/
theorem parseDigitsAux_natCharsAux :
    ∀ (fuel : Nat), ∀ (n acc : Nat) (rest : List Char), n < fuel →
      parseDigitsAux acc (natCharsAux fuel n ++ rest) =
        parseDigitsAux (acc * 10 ^ (natCharsAux fuel n).length + n) rest := by
  intro fuel
  induction fuel with
  | zero => intro n acc rest h; omega
  | succ f ih =>
      intro n acc rest h
      by_cases h10 : n < 10
      · simp only [natCharsAux, if_pos h10, List.cons_append, List.nil_append,
          List.length_cons, List.length_nil]
        simp only [parseDigitsAux]
        rw [digitCh_isDigit n h10, if_pos rfl, digitCh_toNat n h10]
        norm_num
      · simp only [natCharsAux, if_neg h10]
        rw [List.append_assoc, ih (n / 10) acc _ (by omega)]
        simp only [List.cons_append, List.nil_append, List.length_append,
          List.length_cons, List.length_nil]
        simp only [parseDigitsAux]
        rw [digitCh_isDigit _ (by omega), if_pos rfl, digitCh_toNat _ (by omega)]
        have he : 48 + n % 10 - 48 = n % 10 := by omega
        rw [he]
        set L := (natCharsAux f (n / 10)).length with hL
        set P := (10 : Nat) ^ L with hP
        have h1 : (acc * P + n / 10) * 10 + n % 10 =
            acc * P * 10 + (n / 10 * 10 + n % 10) := by ring
        have h2 : (10 : Nat) ^ (L + 1) = P * 10 := by rw [hP, pow_succ]
        have hm : n / 10 * 10 + n % 10 = n := by omega
        simp only [Nat.zero_add]
        rw [h1, hm, h2, mul_assoc]

/-- The decimal rendering is non-empty and starts with a digit. -/
theorem natCharsAux_head :
    ∀ (fuel n : Nat), n < fuel →
      ∃ c l, natCharsAux fuel n = c :: l ∧ c.isDigit = true := by
  intro fuel
  induction fuel with
  | zero => intro n h; omega
  | succ f ih =>
      intro n h
      by_cases h10 : n < 10
      · exact ⟨digitCh n, [], by simp [natCharsAux, h10], digitCh_isDigit n h10⟩
      · obtain ⟨c, l, hcl, hdig⟩ := ih (n / 10) (by omega)
        refine ⟨c, l ++ [digitCh (n % 10)], ?_, hdig⟩
        simp [natCharsAux, h10, hcl]

/-- Digit accumulation stops at a non-digit boundary. -/
theorem parseDigitsAux_stop (acc : Nat) (rest : List Char)
    (h : headNotDigit rest = true) : parseDigitsAux acc rest = (acc, rest) := by
  cases rest with
  | nil => rfl
  | cons c cs =>
      simp only [headNotDigit, Bool.not_eq_true'] at h
      simp [parseDigitsAux, h]

/-- The number parser inverts the decimal rendering. -/
theorem parseNum_natChars (n : Nat) (rest : List Char)
    (h : headNotDigit rest = true) :
    parseNum (natChars n ++ rest) = Option.some (n, rest) := by
  obtain ⟨c, l, hcl, hdig⟩ := natCharsAux_head (n + 1) n (by omega)
  have hnc : natChars n = c :: l := hcl
  rw [hnc, List.cons_append]
  simp only [parseNum]
  rw [hdig, if_pos rfl]
  have hback : c :: (l ++ rest) = natChars n ++ rest := by
    rw [hnc, List.cons_append]
  rw [hback]
  unfold natChars
  rw [parseDigitsAux_natCharsAux (n + 1) n 0 rest (by omega)]
  simp [parseDigitsAux_stop _ _ h]

/-- A safe character is kept verbatim by the string-body parser. -/
theorem decodeOne_safe (c : Char) (T : List Char) (h : safeChar c = true) :
    decodeOne (c :: T) = Option.some (Option.some c, T) := by
  simp only [safeChar, Bool.and_eq_true, Bool.not_eq_true', beq_eq_false_iff_ne,
    ne_eq, decide_eq_true_eq] at h
  obtain ⟨⟨h1, h2⟩, h3⟩ := h
  simp [decodeOne, h2, h3, show ¬c.toNat < 0x20 by omega]

/-- The string-body parser returns a run of safe characters verbatim. -/
theorem parseStrBodyF_safe (l : List Char) :
    ∀ (fuel : Nat) (rest : List Char), l.length < fuel → safeChars l = true →
      parseStrBodyF fuel (l ++ qc :: rest) = Option.some (l, rest) := by
  induction l with
  | nil =>
      intro fuel rest hf _
      match fuel, hf with
      | f + 1, _ => simp [parseStrBodyF, decodeOne, qc]
  | cons c cs ih =>
      intro fuel rest hf hs
      simp only [safeChars, List.all_cons, Bool.and_eq_true] at hs
      match fuel, hf with
      | f + 1, hf =>
        simp only [List.cons_append, parseStrBodyF, decodeOne_safe c _ hs.1]
        rw [ih f rest (by simpa using Nat.lt_of_succ_lt_succ hf) hs.2]
        rfl

/-- `parseStrBody` on a safe run of characters followed by the closing
quote. -/
theorem parseStrBody_safe (l : List Char) (rest : List Char)
    (h : safeChars l = true) :
    parseStrBody (l ++ qc :: rest) = Option.some (l, rest) := by
  unfold parseStrBody
  apply parseStrBodyF_safe l _ rest _ h
  simp
  omega

/-- `skipWs` is transparent before any serialized value. -/
theorem skipWs_dumpsVal (v : PyVal) (X : List Char) :
    skipWs (dumpsVal v ++ X) = dumpsVal v ++ X := by
  cases v with
  | null => simp [dumpsVal, skipWs, isWsChar]
  | bool b => cases b <;> simp [dumpsVal, skipWs, isWsChar]
  | num n =>
      obtain ⟨c, l, hcl, hdig⟩ := natCharsAux_head (n + 1) n (by omega)
      have hnc : dumpsVal (.num n) = c :: l := hcl
      rw [hnc, List.cons_append]
      exact skipWs_not_ws c _ (notWs_of_isDigit c hdig)
  | str s => simp [dumpsVal, skipWs, isWsChar, qc, List.cons_append]
  | dict fs => simp [dumpsVal, skipWs, isWsChar, List.cons_append]

/-- The value parser only looks at its input through `skipWs`. -/
theorem parseValue_ws (fuel : Nat) (cs cs2 : List Char)
    (h : skipWs cs = skipWs cs2) : parseValue fuel cs = parseValue fuel cs2 := by
  cases fuel with
  | zero => rfl
  | succ f => rw [parseValue, parseValue, h]

/-- The member parser only looks at its input through `skipWs`. -/
theorem parseMembers1_ws (fuel : Nat) (cs cs2 : List Char)
    (h : skipWs cs = skipWs cs2) :
    parseMembers1 fuel cs = parseMembers1 fuel cs2 := by
  cases fuel with
  | zero => rfl
  | succ f => rw [parseMembers1, parseMembers1, h]

/-- `skipWs` of a whitespace-fronted list. -/
theorem skipWs_cons_ws (c : Char) (l : List Char) (h : isWsChar c = true) :
    skipWs (c :: l) = skipWs l := by
  simp [skipWs, h]

/-- A list whose whitespace-skip starts with a closing brace does not
start with a digit. -/
theorem headNotDigit_of_skipWs (tail rest : List Char)
    (h : skipWs tail = '\x7d' :: rest) : headNotDigit tail = true := by
  cases tail with
  | nil => simp [skipWs] at h
  | cons c cs =>
      by_cases hw : isWsChar c = true
      · simp [headNotDigit, notDigit_of_isWs c hw]
      · rw [skipWs_not_ws c cs (by simpa using hw)] at h
        have : c = '\x7d' := (List.cons.injEq _ _ _ _ ▸ h).1
        subst this
        rfl

/-- The serialized members of a non-empty dict start with a quote. -/
theorem dumpsMembers_cons_head (p : String × PyVal)
    (ps : List (String × PyVal)) :
    ∃ l, dumpsMembers (p :: ps) = qc :: l := by
  cases ps with
  | nil =>
      refine ⟨escStr p.1.data ++ qc :: ':' :: ' ' :: dumpsVal p.2, ?_⟩
      simp [dumpsMembers, List.cons_append, List.append_assoc]
  | cons q ps2 =>
      refine ⟨escStr p.1.data ++ qc :: ':' :: ' ' ::
        (dumpsVal p.2 ++ ',' :: ' ' :: dumpsMembers (q :: ps2)), ?_⟩
      simp [dumpsMembers, List.cons_append, List.append_assoc]

/-- Every value costs at least one unit of fuel. -/
theorem cost_pos (v : PyVal) : 1 ≤ cost v := by
  cases v <;> simp [cost] <;> omega

mutual

/-- The JSON parser inverts `json.dumps`: a serialized value followed by a
non-digit boundary parses back to the value it denotes, for any
sufficient fuel. -/
theorem parseValue_dumps (v : PyVal) :
    ∀ (fuel : Nat) (rest : List Char), cost v ≤ fuel →
      headNotDigit rest = true →
      parseValue fuel (dumpsVal v ++ rest) = Option.some (toJson v, rest) := by
  match v with
  | .null =>
      intro fuel rest hc hd
      match fuel with
      | 0 => simp [cost] at hc
      | f + 1 =>
        rw [show dumpsVal .null = 'n' :: 'u' :: 'l' :: 'l' :: [] from rfl]
        simp only [List.cons_append, List.nil_append]
        rw [parseValue, skipWs_not_ws _ _ (by decide)]
        simp [toJson, qc, bsl]
  | .bool true =>
      intro fuel rest hc hd
      match fuel with
      | 0 => simp [cost] at hc
      | f + 1 =>
        rw [show dumpsVal (.bool true) = 't' :: 'r' :: 'u' :: 'e' :: [] from rfl]
        simp only [List.cons_append, List.nil_append]
        rw [parseValue, skipWs_not_ws _ _ (by decide)]
        simp [toJson, qc, bsl]
  | .bool false =>
      intro fuel rest hc hd
      match fuel with
      | 0 => simp [cost] at hc
      | f + 1 =>
        rw [show dumpsVal (.bool false) = 'f' :: 'a' :: 'l' :: 's' :: 'e' :: [] from rfl]
        simp only [List.cons_append, List.nil_append]
        rw [parseValue, skipWs_not_ws _ _ (by decide)]
        simp [toJson, qc, bsl]
  | .num n =>
      intro fuel rest hc hd
      match fuel with
      | 0 => simp [cost] at hc
      | f + 1 =>
        obtain ⟨c, l, hcl, hdig⟩ := natCharsAux_head (n + 1) n (by omega)
        have hd0 : dumpsVal (.num n) = c :: l := hcl
        have hn : ¬c = 'n' := fun he => absurd (he ▸ hdig) (by decide)
        have ht : ¬c = 't' := fun he => absurd (he ▸ hdig) (by decide)
        have hf : ¬c = 'f' := fun he => absurd (he ▸ hdig) (by decide)
        have hq : ¬c = qc := fun he => absurd (he ▸ hdig) (by decide)
        have hm : ¬c = '-' := fun he => absurd (he ▸ hdig) (by decide)
        have hbl : ¬c = '\x7b' := fun he => absurd (he ▸ hdig) (by decide)
        have hbk : ¬c = '[' := fun he => absurd (he ▸ hdig) (by decide)
        have hpn : parseNum (c :: (l ++ rest)) = Option.some (n, rest) := by
          rw [← List.cons_append, ← hd0]
          exact parseNum_natChars n rest hd
        rw [parseValue, skipWs_dumpsVal, hd0, List.cons_append]
        simp [hn, ht, hf, hq, hm, hbl, hbk, hdig, hpn, toJson]
  | .str s =>
      intro fuel rest hc hd
      match fuel with
      | 0 => simp [cost] at hc
      | f + 1 =>
        simp only [dumpsVal, List.cons_append, List.append_assoc,
          List.nil_append]
        rw [parseValue, skipWs_not_ws _ _ (by decide)]
        simp [qc, bsl]
        rw [show Char.ofNat 34 = qc from rfl, parseStrBody_escStr]
        simp [toJson, strMkData]
  | .dict fs =>
      intro fuel rest hc hd
      have hcost : 2 + costM fs ≤ fuel := hc
      match fuel with
      | 0 => exact absurd hcost (by omega)
      | 1 => exact absurd hcost (by omega)
      | f + 2 =>
        simp only [dumpsVal, List.cons_append, List.append_assoc,
          List.nil_append]
        rw [parseValue, skipWs_not_ws _ _ (by decide)]
        simp only [qc, bsl]
        rw [if_neg (by decide), if_neg (by decide), if_neg (by decide),
            if_neg (by decide), if_neg (by decide), if_pos (by trivial)]
        cases fs with
        | nil =>
            simp only [dumpsMembers, List.nil_append]
            rw [parseMembers, skipWs_not_ws _ _ (by decide)]
            simp [toJson, toJsonFields]
        | cons p ps =>
            obtain ⟨l, hl⟩ := dumpsMembers_cons_head p ps
            rw [parseMembers]
            rw [hl, List.cons_append, skipWs_not_ws _ _ (by decide)]
            simp only []
            rw [if_neg (by decide)]
            rw [← List.cons_append, ← hl]
            rw [parseMembers1_dumps (p :: ps) (by simp) f
              ('\x7d' :: rest) rest (by omega)
              (skipWs_not_ws _ _ (by decide))]
            simp [toJson]

/-- The member parser inverts the serialized members of a non-empty dict,
up to the closing brace. -/
theorem parseMembers1_dumps (fs : List (String × PyVal)) (hne : fs ≠ []) :
    ∀ (fuel : Nat) (tail rest : List Char), costM fs ≤ fuel →
      skipWs tail = '\x7d' :: rest →
      parseMembers1 fuel (dumpsMembers fs ++ tail) =
        Option.some (toJsonFields fs, rest) := by
  match fs with
  | [] => exact absurd rfl hne
  | [p] =>
      intro fuel tail rest hc hskip
      have hcp := cost_pos p.2
      have hc1 : 1 + cost p.2 + 0 ≤ fuel := hc
      match fuel with
      | 0 => exact absurd hc1 (by omega)
      | f + 1 =>
        simp only [dumpsMembers, List.cons_append, List.append_assoc,
          List.nil_append]
        rw [parseMembers1, skipWs_not_ws _ _ (by decide)]
        simp only []
        rw [if_pos (by trivial)]
        rw [parseStrBody_escStr]
        simp only []
        rw [skipWs_not_ws _ _ (by decide)]
        simp only []
        have hv : parseValue f (' ' :: (dumpsVal p.2 ++ tail)) =
            Option.some (toJson p.2, tail) := by
          rw [parseValue_ws f _ (dumpsVal p.2 ++ tail)
            (by rw [skipWs_cons_ws _ _ (by decide), skipWs_dumpsVal])]
          exact parseValue_dumps p.2 f tail (by omega)
            (headNotDigit_of_skipWs tail rest hskip)
        rw [hv]
        simp only []
        rw [hskip]
        simp [toJsonFields, strMkData]
  | p :: q :: ps2 =>
      intro fuel tail rest hc hskip
      have hcp := cost_pos p.2
      have hc1 : 1 + cost p.2 + costM (q :: ps2) ≤ fuel := hc
      match fuel with
      | 0 => exact absurd hc1 (by omega)
      | f + 1 =>
        simp only [dumpsMembers, List.cons_append, List.append_assoc,
          List.nil_append]
        rw [parseMembers1, skipWs_not_ws _ _ (by decide)]
        simp only []
        rw [if_pos (by trivial)]
        rw [parseStrBody_escStr]
        simp only []
        rw [skipWs_not_ws _ _ (by decide)]
        simp only []
        have hv : parseValue f
            (' ' :: (dumpsVal p.2 ++ (',' :: ' ' :: (dumpsMembers (q :: ps2) ++ tail)))) =
            Option.some (toJson p.2, ',' :: ' ' :: (dumpsMembers (q :: ps2) ++ tail)) := by
          rw [parseValue_ws f _
            (dumpsVal p.2 ++ (',' :: ' ' :: (dumpsMembers (q :: ps2) ++ tail)))
            (by rw [skipWs_cons_ws _ _ (by decide), skipWs_dumpsVal])]
          exact parseValue_dumps p.2 f _ (by omega) rfl
        rw [hv]
        simp only []
        rw [skipWs_not_ws _ _ (by decide)]
        simp only []
        have hm2 : parseMembers1 f (' ' :: (dumpsMembers (q :: ps2) ++ tail)) =
            Option.some (toJsonFields (q :: ps2), rest) := by
          obtain ⟨l2, hl2⟩ := dumpsMembers_cons_head q ps2
          rw [parseMembers1_ws f _ (dumpsMembers (q :: ps2) ++ tail)
            (by rw [skipWs_cons_ws _ _ (by decide), hl2, List.cons_append,
                  skipWs_not_ws _ _ (by decide)])]
          exact parseMembers1_dumps (q :: ps2) (by simp) f tail rest
            (by omega) hskip
        rw [hm2]
        simp [toJsonFields, strMkData]

end

mutual

/-- The parser fuel a serialized value needs is bounded by its length. -/
theorem cost_le_length (v : PyVal) : cost v ≤ (dumpsVal v).length + 1 := by
  match v with
  | .null => simp [cost, dumpsVal]
  | .bool b => cases b <;> simp [cost, dumpsVal]
  | .num n => simp [cost]
  | .str s => simp [cost]
  | .dict fs =>
      have h := costM_le_length fs
      simp only [cost, dumpsVal, List.length_cons, List.length_append]
      simp only [List.length_cons, List.length_nil]
      omega

/-- The parser fuel a serialized member list needs is bounded by its
length. -/
theorem costM_le_length (fs : List (String × PyVal)) :
    costM fs ≤ (dumpsMembers fs).length + 1 := by
  match fs with
  | [] => simp [costM]
  | [p] =>
      have h := cost_le_length p.2
      simp only [costM, dumpsMembers, List.length_cons, List.length_append]
      omega
  | p :: q :: ps2 =>
      have h1 := cost_le_length p.2
      have h2 := costM_le_length (q :: ps2)
      have e1 : costM (p :: q :: ps2) = 1 + cost p.2 + costM (q :: ps2) := rfl
      have e2 : dumpsMembers (p :: q :: ps2) =
          (qc :: escStr p.1.data ++ qc :: ':' :: ' ' :: dumpsVal p.2) ++
            ',' :: ' ' :: dumpsMembers (q :: ps2) := rfl
      rw [e1, e2]
      simp only [List.length_append, List.length_cons]
      omega

end

/-- A pre-rendered object member: key, rendered value characters, the
JSON value they parse to, and the parser fuel that parse needs. -/
def renderMembers : List (String × List Char × Json × Nat) → List Char
  | [] => []
  | [m] => qc :: m.1.data ++ qc :: ':' :: ' ' :: m.2.1
  | m :: m2 :: ms =>
      (qc :: m.1.data ++ qc :: ':' :: ' ' :: m.2.1) ++
        ',' :: ' ' :: renderMembers (m2 :: ms)

/-- Fuel needed to parse a pre-rendered member list. -/
def memberCosts : List (String × List Char × Json × Nat) → Nat
  | [] => 0
  | m :: ms => 1 + m.2.2.2 + memberCosts ms

/-- A raw safe string interpolated between quotes parses as a JSON
string (this is how the template embeds the level name, trace and span
id without escaping them). -/
theorem parseValue_rawStr (S : String) (h : safeStr S = true) :
    ∀ (fuel : Nat) (rest : List Char), 1 ≤ fuel →
      parseValue fuel ((qc :: S.data ++ [qc]) ++ rest) =
        Option.some (.str S, rest) := by
  intro fuel rest hf
  match fuel with
  | f + 1 =>
    simp only [List.cons_append, List.append_assoc, List.nil_append]
    rw [parseValue, skipWs_not_ws _ _ (by decide)]
    simp only [qc, bsl]
    rw [if_neg (by decide), if_neg (by decide), if_neg (by decide),
        if_pos (by trivial)]
    rw [show Char.ofNat 34 = qc from rfl, parseStrBody_safe S.data rest h]

/-- The member parser accepts any pre-rendered member list whose keys are
safe and whose values parse, consuming the closing brace. -/
theorem parseMembers1_rendered (RM : List (String × List Char × Json × Nat)) :
    RM ≠ [] →
    (∀ m ∈ RM, safeChars m.1.data = true) →
    (∀ m ∈ RM, ∀ (X : List Char), skipWs (m.2.1 ++ X) = m.2.1 ++ X) →
    (∀ m ∈ RM, ∀ (fuel : Nat) (rest : List Char), m.2.2.2 ≤ fuel →
        headNotDigit rest = true →
        parseValue fuel (m.2.1 ++ rest) = Option.some (m.2.2.1, rest)) →
    ∀ (fuel : Nat) (tail rest : List Char), memberCosts RM ≤ fuel →
      skipWs tail = '\x7d' :: rest →
      parseMembers1 fuel (renderMembers RM ++ tail) =
        Option.some (RM.map (fun m => (m.1, m.2.2.1)), rest) := by
  induction RM with
  | nil => intro hne; exact absurd rfl hne
  | cons m ms ih =>
      intro _ hkeys hheads hvals fuel tail rest hc hskip
      have hc1 : 1 + m.2.2.2 + memberCosts ms ≤ fuel := hc
      match fuel with
      | 0 => exact absurd hc1 (by omega)
      | f + 1 =>
        cases ms with
        | nil =>
            simp only [renderMembers, List.cons_append, List.append_assoc,
              List.nil_append]
            rw [parseMembers1, skipWs_not_ws _ _ (by decide)]
            simp only []
            rw [if_pos (by trivial)]
            rw [parseStrBody_safe m.1.data _ (hkeys m (by simp))]
            simp only []
            rw [skipWs_not_ws _ _ (by decide)]
            simp only []
            have hv := hvals m (by simp) f tail (by omega)
              (headNotDigit_of_skipWs tail rest hskip)
            rw [parseValue_ws f _ (m.2.1 ++ tail)
              (by rw [skipWs_cons_ws _ _ (by decide), hheads m (by simp) tail])]
            rw [hv]
            simp only []
            rw [hskip]
            simp [strMkData]
        | cons m2 ms2 =>
            simp only [renderMembers, List.cons_append, List.append_assoc,
              List.nil_append]
            rw [parseMembers1, skipWs_not_ws _ _ (by decide)]
            simp only []
            rw [if_pos (by trivial)]
            rw [parseStrBody_safe m.1.data _ (hkeys m (by simp))]
            simp only []
            rw [skipWs_not_ws _ _ (by decide)]
            simp only []
            have hv := hvals m (by simp) f
              (',' :: ' ' :: (renderMembers (m2 :: ms2) ++ tail)) (by omega) rfl
            rw [parseValue_ws f _
              (m.2.1 ++ (',' :: ' ' :: (renderMembers (m2 :: ms2) ++ tail)))
              (by rw [skipWs_cons_ws _ _ (by decide), hheads m (by simp)])]
            rw [hv]
            simp only []
            rw [skipWs_not_ws _ _ (by decide)]
            simp only []
            have hrm : ∃ l, renderMembers (m2 :: ms2) = qc :: l := by
              cases ms2 with
              | nil =>
                  refine ⟨m2.1.data ++ qc :: ':' :: ' ' :: m2.2.1, ?_⟩
                  simp [renderMembers, List.cons_append, List.append_assoc]
              | cons m3 ms3 =>
                  refine ⟨m2.1.data ++ qc :: ':' :: ' ' ::
                    (m2.2.1 ++ ',' :: ' ' :: renderMembers (m3 :: ms3)), ?_⟩
                  simp [renderMembers, List.cons_append, List.append_assoc]
            obtain ⟨l2, hl2⟩ := hrm
            have hm2 : parseMembers1 f
                (' ' :: (renderMembers (m2 :: ms2) ++ tail)) =
                Option.some ((m2 :: ms2).map (fun x => (x.1, x.2.2.1)), rest) := by
              rw [parseMembers1_ws f _ (renderMembers (m2 :: ms2) ++ tail)
                (by rw [skipWs_cons_ws _ _ (by decide), hl2, List.cons_append,
                      skipWs_not_ws _ _ (by decide)])]
              exact ih (by simp)
                (fun x hx => hkeys x (List.mem_cons_of_mem m hx))
                (fun x hx => hheads x (List.mem_cons_of_mem m hx))
                (fun x hx => hvals x (List.mem_cons_of_mem m hx))
                f tail rest (by omega) hskip
            rw [hm2]
            simp [strMkData]

/-- Heads of non-empty pre-rendered member lists. -/
theorem renderMembers_cons_head (m : String × List Char × Json × Nat)
    (ms : List (String × List Char × Json × Nat)) :
    ∃ l, renderMembers (m :: ms) = qc :: l := by
  cases ms with
  | nil =>
      refine ⟨m.1.data ++ qc :: ':' :: ' ' :: m.2.1, ?_⟩
      simp [renderMembers, List.cons_append, List.append_assoc]
  | cons m2 ms2 =>
      refine ⟨m.1.data ++ qc :: ':' :: ' ' ::
        (m.2.1 ++ ',' :: ' ' :: renderMembers (m2 :: ms2)), ?_⟩
      simp [renderMembers, List.cons_append, List.append_assoc]

/-- The seven members of the `GCP_FORMAT` line, pre-rendered: the message
and the three structured fields are `json.dumps` output, the level name,
trace and span id are raw strings surrounded by literal quotes. -/
def topMembers (M LVL TR SP : String) (Lv Sv Hv : PyVal) :
    List (String × List Char × Json × Nat) :=
  [("message", dumpsVal (.str M), toJson (.str M), cost (.str M)),
   ("severity", qc :: LVL.data ++ [qc], .str LVL, 1),
   ("logging.googleapis.com/labels", dumpsVal Lv, toJson Lv, cost Lv),
   ("logging.googleapis.com/trace", qc :: TR.data ++ [qc], .str TR, 1),
   ("logging.googleapis.com/spanId", qc :: SP.data ++ [qc], .str SP, 1),
   ("logging.googleapis.com/sourceLocation", dumpsVal Sv, toJson Sv, cost Sv),
   ("httpRequest", dumpsVal Hv, toJson Hv, cost Hv)]

/-- The rendered template line is the brace-wrapped rendering of the
seven members, with the template's space before the closing brace. -/
theorem gcpRender_data (M LVL TR SP : String) (Lv Sv Hv : PyVal) :
    (gcpRender (dumps (.str M)) LVL (dumps Lv) TR SP (dumps Sv)
        (dumps Hv)).data =
      '\x7b' :: renderMembers (topMembers M LVL TR SP Lv Sv Hv) ++
        [' ', '\x7d'] := by
  simp [gcpRender, topMembers, renderMembers, dumps, strDataMk,
    chunkMessage, chunkSeverity, chunkLabels, chunkTrace, chunkSpanId,
    chunkSourceLocation, chunkHttpRequest, chunkClose, qc, bsl,
    List.cons_append, List.append_assoc]

/-- Parsing the brace-wrapped seven members consumes everything and
yields the object with exactly those keys, for any sufficient fuel. -/
theorem parseValue_topMembers (M LVL TR SP : String) (Lv Sv Hv : PyVal)
    (hlvl : safeStr LVL = true) (htr : safeStr TR = true)
    (hsp : safeStr SP = true) :
    ∀ (fuel : Nat),
      memberCosts (topMembers M LVL TR SP Lv Sv Hv) + 2 ≤ fuel →
      parseValue fuel
          ('\x7b' :: renderMembers (topMembers M LVL TR SP Lv Sv Hv) ++
            [' ', '\x7d']) =
        Option.some
          (.obj ((topMembers M LVL TR SP Lv Sv Hv).map
            (fun m => (m.1, m.2.2.1))), []) := by
  intro fuel hf
  have hmc : 0 ≤ memberCosts (topMembers M LVL TR SP Lv Sv Hv) := Nat.zero_le _
  match fuel with
  | 0 => exact absurd hf (by omega)
  | 1 => exact absurd hf (by omega)
  | f + 2 =>
    rw [parseValue, List.cons_append, skipWs_not_ws _ _ (by decide)]
    simp only [qc, bsl]
    rw [if_neg (by decide), if_neg (by decide), if_neg (by decide),
        if_neg (by decide), if_neg (by decide), if_pos (by trivial)]
    rw [parseMembers]
    obtain ⟨l, hl⟩ := renderMembers_cons_head
      ("message", dumpsVal (.str M), toJson (.str M), cost (.str M)) _
    rw [show renderMembers (topMembers M LVL TR SP Lv Sv Hv) = qc :: l from hl,
        List.cons_append, skipWs_not_ws _ _ (by decide)]
    simp only []
    rw [if_neg (by decide)]
    rw [← List.cons_append,
        ← (show renderMembers (topMembers M LVL TR SP Lv Sv Hv) = qc :: l from hl)]
    rw [parseMembers1_rendered (topMembers M LVL TR SP Lv Sv Hv) (by simp [topMembers])
      ?hkeys ?hheads ?hvals f [' ', '\x7d'] [] (by omega) (by decide)]
    case hkeys =>
      intro m hm
      simp only [topMembers, List.mem_cons, List.not_mem_nil, or_false] at hm
      rcases hm with h | h | h | h | h | h | h <;> subst h <;>
        (simp only []; decide)
    case hheads =>
      intro m hm X
      simp only [topMembers, List.mem_cons, List.not_mem_nil, or_false] at hm
      rcases hm with h | h | h | h | h | h | h <;> subst h <;>
        simp only [] <;>
        first
          | exact skipWs_dumpsVal _ X
          | (rw [List.cons_append]
             exact skipWs_not_ws _ _ (by decide))
    case hvals =>
      intro m hm fuel2 rest2 hc2 hd2
      simp only [topMembers, List.mem_cons, List.not_mem_nil, or_false] at hm
      rcases hm with h | h | h | h | h | h | h <;> subst h <;> simp only [] <;>
        first
          | exact parseValue_dumps _ fuel2 rest2 hc2 hd2
          | exact parseValue_rawStr LVL hlvl fuel2 rest2 hc2
          | exact parseValue_rawStr TR htr fuel2 rest2 hc2
          | exact parseValue_rawStr SP hsp fuel2 rest2 hc2

/-- The rendered `GCP_FORMAT` line parses back into a JSON object with
exactly the seven documented keys, whenever the three raw-interpolated
strings are safe. -/
theorem topLevelKeys_gcpRender (M LVL TR SP : String) (Lv Sv Hv : PyVal)
    (hlvl : safeStr LVL = true) (htr : safeStr TR = true)
    (hsp : safeStr SP = true) :
    topLevelKeys (gcpRender (dumps (.str M)) LVL (dumps Lv) TR SP
        (dumps Sv) (dumps Hv)) =
      Option.some ["message", "severity", "logging.googleapis.com/labels",
        "logging.googleapis.com/trace", "logging.googleapis.com/spanId",
        "logging.googleapis.com/sourceLocation", "httpRequest"] := by
  have hdata := gcpRender_data M LVL TR SP Lv Sv Hv
  have hcost : memberCosts (topMembers M LVL TR SP Lv Sv Hv) + 2 ≤
      ('\x7b' :: renderMembers (topMembers M LVL TR SP Lv Sv Hv) ++
        [' ', '\x7d']).length + 1 := by
    have c1 := cost_le_length Lv
    have c2 := cost_le_length Sv
    have c3 := cost_le_length Hv
    simp only [topMembers, memberCosts, renderMembers, cost,
      List.length_cons, List.length_append]
    simp
    omega
  simp only [topLevelKeys, parseJson]
  rw [hdata]
  rw [parseValue_topMembers M LVL TR SP Lv Sv Hv hlvl htr hsp _ hcost]
  simp [topMembers, skipWs]

/-- The trace string the filter derives is safe whenever the supplied
trace override is. -/
theorem traceStr_safe (cfg : FilterConfig) (r : LogRecord)
    (h : safeOptStr r.trace = true) :
    safeStr (enrich cfg r).traceStr = true := by
  cases ht : r.trace with
  | none => simp [enrich, ht, pyOrNull, pyTruthy, strOrEmpty, isNotNull]; decide
  | some t =>
      have hts : safeStr t = true := by rw [ht] at h; exact h
      by_cases hte : t = ""
      · subst hte
        simp [enrich, ht, pyOrNull, pyTruthy, strOrEmpty, isNotNull]
        decide
      · simp [enrich, ht, pyOrNull, pyTruthy, strOrEmpty, isNotNull, hte]
        exact hts

/-- The span-id string the filter derives is safe whenever the supplied
span-id override is. -/
theorem spanIdStr_safe (cfg : FilterConfig) (r : LogRecord)
    (h : safeOptStr r.span_id = true) :
    safeStr (enrich cfg r).spanIdStr = true := by
  cases ht : r.span_id with
  | none => simp [enrich, ht, pyOrNull, pyTruthy, strOrEmpty, isNotNull]; decide
  | some t =>
      have hts : safeStr t = true := by rw [ht] at h; exact h
      by_cases hte : t = ""
      · subst hte
        simp [enrich, ht, pyOrNull, pyTruthy, strOrEmpty, isNotNull]
        decide
      · simp [enrich, ht, pyOrNull, pyTruthy, strOrEmpty, isNotNull, hte]
        exact hts

/-- The emitted line, written as the rendered template over the derived
strings. -/
theorem emitLine_as_gcpRender (cfg : FilterConfig) (r : LogRecord) :
    emitLine cfg r =
      gcpRender
        (dumps (.str ((if r.msg ≠ "" then Option.some (superFormat r)
          else Option.none).getD "")))
        r.levelname
        (dumps (orEmptyDict (enrich cfg r).labelsF))
        (enrich cfg r).traceStr
        (enrich cfg r).spanIdStr
        (dumps (orEmptyDict (enrich cfg r).sourceLocationF))
        (dumps (orEmptyDict (enrich cfg r).httpRequestF)) := rfl

/-- A record whose trace contains a double quote, used to refute the
unrestricted round-trip claim. -/
def cexRecordC4 : LogRecord :=
  { msg := "m", levelname := "INFO", lineno := Option.none,
    pathname := Option.none, funcName := Option.none,
    trace := Option.some "a\"b" }

/-- C4, counterexample: the trace value is substituted into the template
without JSON escaping, so the record with trace `a"b` produces a line
that is not valid JSON at all — the claim fails for this caller-supplied
override value. -/
theorem claim_C4_counterexample :
    topLevelKeys (emitLine cfg0 cexRecordC4) = Option.none := by rfl

/-- C4 (amended): every emitted line is valid JSON that parses back into
an object with exactly the seven documented top-level keys, provided the
three fields the template substitutes without JSON escaping — the level
name and the trace and span-id values, when present — contain no double
quote, backslash or control character.  The message and the labels,
http-request and source-location values are unrestricted (they are
JSON-encoded before substitution). -/
theorem claim_C4_theorem (cfg : FilterConfig) (r : LogRecord)
    (hlvl : safeStr r.levelname = true)
    (htr : safeOptStr r.trace = true)
    (hsp : safeOptStr r.span_id = true) :
    topLevelKeys (emitLine cfg r) =
      Option.some ["message", "severity", "logging.googleapis.com/labels",
        "logging.googleapis.com/trace", "logging.googleapis.com/spanId",
        "logging.googleapis.com/sourceLocation", "httpRequest"] := by
  rw [emitLine_as_gcpRender cfg r]
  exact topLevelKeys_gcpRender _ r.levelname
    (enrich cfg r).traceStr (enrich cfg r).spanIdStr _ _ _
    hlvl (traceStr_safe cfg r htr) (spanIdStr_safe cfg r hsp)

/-- C4 witness: a concrete record with message, labels, trace, span id,
http request and inferred source location produces a line with exactly
the seven keys. -/
theorem claim_C4_witness :
    topLevelKeys (emitLine ⟨Option.some "proj1", [("env", .str "prod")]⟩
        { msg := "boot \"ok\"", levelname := "INFO",
          lineno := Option.some 42, pathname := Option.some "/app/x.py",
          funcName := Option.some "main",
          labels := Option.some [("b", .str "9")],
          trace := Option.some "abc123", span_id := Option.some "span1",
          http_request := Option.some
            (.dict [("foo", .str "bar"), ("requestMethod", .str "GET")]) }) =
      Option.some ["message", "severity", "logging.googleapis.com/labels",
        "logging.googleapis.com/trace", "logging.googleapis.com/spanId",
        "logging.googleapis.com/sourceLocation", "httpRequest"] :=
  claim_C4_theorem ⟨Option.some "proj1", [("env", .str "prod")]⟩
    { msg := "boot \"ok\"", levelname := "INFO",
      lineno := Option.some 42, pathname := Option.some "/app/x.py",
      funcName := Option.some "main",
      labels := Option.some [("b", .str "9")],
      trace := Option.some "abc123", span_id := Option.some "span1",
      http_request := Option.some
        (.dict [("foo", .str "bar"), ("requestMethod", .str "GET")]) }
    (by decide) (by decide) (by decide)

end LoggingGke